import Mathlib

/-!
Verification of the pycal event-storage and day/week rendering core.

The Python `datetime` values are modelled by `PyDateTime` (year, month, day,
hour, minute, second, microsecond); Python compares datetimes by field tuples,
modelled by `pyLt`.  The SQLite table is a list of `Row`s whose `start`/`end_`
columns hold the textual minute-precision encoding produced by `_iso`
(`strftime "%Y-%m-%dT%H:%M"`, zero-padded fields); SQLite TEXT comparison is
byte comparison of UTF-8, i.e. code-point lexicographic order, modelled by
`lexLt`.  `ORDER BY` over the insertion-ordered table and Python's `sorted`
are modelled by the stable `List.mergeSort`.
-/

/-- Model of a Python `datetime.datetime` value: the seven components. -/
structure PyDateTime where
  year : Nat
  month : Nat
  day : Nat
  hour : Nat
  minute : Nat
  second : Nat
  microsecond : Nat
deriving DecidableEq, Inhabited

/-- Gregorian leap-year test, as in Python's `calendar.isleap` and the
`datetime` module. -/
def isLeap (y : Nat) : Bool :=
  y % 4 == 0 && (y % 100 != 0 || y % 400 == 0)

/-- Days in a month of a given year (CPython `_days_in_month`). -/
def daysInMonth (y m : Nat) : Nat :=
  if m = 2 then (if isLeap y then 29 else 28)
  else if m = 4 ∨ m = 6 ∨ m = 9 ∨ m = 11 then 30
  else 31

/-- Validity of a `PyDateTime`, exactly the range checks of the
`datetime.datetime` constructor (`MINYEAR = 1`, `MAXYEAR = 9999`). -/
def ValidDateTime (t : PyDateTime) : Prop :=
  1 ≤ t.year ∧ t.year ≤ 9999 ∧ 1 ≤ t.month ∧ t.month ≤ 12 ∧
  1 ≤ t.day ∧ t.day ≤ daysInMonth t.year t.month ∧
  t.hour ≤ 23 ∧ t.minute ≤ 59 ∧ t.second ≤ 59 ∧ t.microsecond ≤ 999999

instance (t : PyDateTime) : Decidable (ValidDateTime t) := by
  unfold ValidDateTime; infer_instance

/-- Python's `datetime` comparison: lexicographic on the field tuple.
For valid datetimes this is chronological order. -/
def pyLt (a b : PyDateTime) : Prop :=
  a.year < b.year ∨ (a.year = b.year ∧
    (a.month < b.month ∨ (a.month = b.month ∧
      (a.day < b.day ∨ (a.day = b.day ∧
        (a.hour < b.hour ∨ (a.hour = b.hour ∧
          (a.minute < b.minute ∨ (a.minute = b.minute ∧
            (a.second < b.second ∨ (a.second = b.second ∧
              a.microsecond < b.microsecond)))))))))))

instance (a b : PyDateTime) : Decidable (pyLt a b) := by
  unfold pyLt; infer_instance

/-- Python `datetime` comparison restricted to the calendar-date components,
i.e. comparison of `date()` values. -/
def dateLt (a b : PyDateTime) : Prop :=
  a.year < b.year ∨ (a.year = b.year ∧
    (a.month < b.month ∨ (a.month = b.month ∧ a.day < b.day)))

instance (a b : PyDateTime) : Decidable (dateLt a b) := by
  unfold dateLt; infer_instance

/-- The ASCII character of a decimal digit. -/
def digitChar (n : Nat) : Char := Char.ofNat (48 + n)

/-- Two-digit zero-padded decimal rendering (strftime `%m`, `%d`, `%H`, `%M`). -/
def pad2 (n : Nat) : List Char := [digitChar (n / 10), digitChar (n % 10)]

/-- Four-digit zero-padded decimal rendering (strftime `%Y` on datetime's
1–9999 year range, as documented). -/
def pad4 (n : Nat) : List Char :=
  [digitChar (n / 1000), digitChar (n / 100 % 10), digitChar (n / 10 % 10), digitChar (n % 10)]

/-- Character list of `dt.strftime("%Y-%m-%dT%H:%M")`. -/
def isoChars (t : PyDateTime) : List Char :=
  pad4 t.year ++ ('-' :: (pad2 t.month ++ ('-' :: (pad2 t.day ++
    ('T' :: (pad2 t.hour ++ (':' :: pad2 t.minute)))))))

/-- Model of `storage._iso`: `dt.strftime("%Y-%m-%dT%H:%M")`. -/
def _iso (t : PyDateTime) : String := String.mk (isoChars t)

/-- Numeric value of an ASCII digit character. -/
def digitVal (c : Char) : Nat := c.toNat - 48

/-- Model of `storage._parse_iso`: `datetime.strptime(s, "%Y-%m-%dT%H:%M")`
on the fixed-width strings `_iso` produces: four digit year, two-digit
month/day/hour/minute at fixed positions, validated by the `datetime`
constructor's range checks; seconds and microseconds default to zero.
Malformed input yields `none` (strptime raises). -/
def parseChars : List Char → Option PyDateTime
  | [y1, y2, y3, y4, c1, m1, m2, c2, d1, d2, c3, h1, h2, c4, n1, n2] =>
    if y1.isDigit && y2.isDigit && y3.isDigit && y4.isDigit &&
       m1.isDigit && m2.isDigit && d1.isDigit && d2.isDigit &&
       h1.isDigit && h2.isDigit && n1.isDigit && n2.isDigit &&
       c1 == '-' && c2 == '-' && c3 == 'T' && c4 == ':' then
      let t : PyDateTime :=
        ⟨digitVal y1 * 1000 + digitVal y2 * 100 + digitVal y3 * 10 + digitVal y4,
         digitVal m1 * 10 + digitVal m2,
         digitVal d1 * 10 + digitVal d2,
         digitVal h1 * 10 + digitVal h2,
         digitVal n1 * 10 + digitVal n2, 0, 0⟩
      if ValidDateTime t then some t else none
    else none
  | _ => none

def _parse_iso (s : String) : Option PyDateTime := parseChars s.data

/-- Python `dt.replace(second=0, microsecond=0)`: the truncation `_iso`
performs on the sub-minute components. -/
def truncMinute (t : PyDateTime) : PyDateTime := { t with second := 0, microsecond := 0 }

/-- Code-point lexicographic order on character lists: the order SQLite's
default BINARY collation gives UTF-8 TEXT values, and Python's `str` order. -/
def lexLt : List Char → List Char → Bool
  | _, [] => false
  | [], _ :: _ => true
  | a :: as, b :: bs => if a < b then true else if a = b then lexLt as bs else false

/-- String comparison as performed on the stored TEXT columns. -/
def strLt (s t : String) : Bool := lexLt s.data t.data

/-- Model of `events.Event`: one calendar event. The `end` field is named
`end_` because `end` is a Lean keyword. -/
structure Event where
  description : String
  category : String
  start : PyDateTime
  end_ : PyDateTime
deriving DecidableEq, Inhabited

/-- One row of the SQLite `events` table: the `description`, `category`,
`start`, `end` TEXT columns (the `end` column is named `end_`).  The table is
modelled as a `List Row` in rowid (insertion) order. -/
structure Row where
  description : String
  category : String
  start : String
  end_ : String
deriving DecidableEq, Inhabited

/-- Model of `storage.add_event`: INSERT appends one row holding the
`_iso`-encoded timestamps. -/
def add_event (db : List Row) (event : Event) : List Row :=
  db ++ [⟨event.description, event.category, _iso event.start, _iso event.end_⟩]

/-- The WHERE clause of the query in `storage.events_in_range`:
`start < ? AND end > ?` with the window bounds bound to `_iso end`/`_iso start`,
compared as TEXT. -/
def overlaps (start_s end_s : String) (r : Row) : Bool :=
  strLt r.start end_s && strLt start_s r.end_

/-- Row comparison used by `ORDER BY start` (ascending, TEXT order). -/
def rowLe (r1 r2 : Row) : Bool := !(strLt r2.start r1.start)

/-- Reconstruction of an `Event` from a fetched row, as in the list
comprehension of `storage.events_in_range`; `none` models a strptime failure
on a corrupted column. -/
def eventOfRow (r : Row) : Option Event :=
  match _parse_iso r.start, _parse_iso r.end_ with
  | some s, some e => some ⟨r.description, r.category, s, e⟩
  | _, _ => none

/-- Model of `storage.events_in_range`: filter by the overlap condition in
rowid order, sort stably by the `start` column, and parse each row back into
an `Event`; `none` models the parse failure on corrupted data. -/
def events_in_range (db : List Row) (start end_ : PyDateTime) : Option (List Event) :=
  let start_s := _iso start
  let end_s := _iso end_
  let rows := db.filter (overlaps start_s end_s)
  (rows.mergeSort rowLe).mapM eventOfRow

/-- A database state reachable by `add_event` inserts: every timestamp column
parses back (it is a well-formed minute-precision encoding). -/
def WellFormedDB (db : List Row) : Prop :=
  ∀ r ∈ db, (_parse_iso r.start).isSome ∧ (_parse_iso r.end_).isSome

instance (db : List Row) : Decidable (WellFormedDB db) := by
  unfold WellFormedDB; infer_instance

/-- The event represented by some stored row of the database. -/
def storedEvent (db : List Row) (e : Event) : Prop :=
  ∃ r ∈ db, eventOfRow r = some e

instance (db : List Row) (e : Event) : Decidable (storedEvent db e) := by
  unfold storedEvent; infer_instance

/-- Event comparison used by `sorted(..., key=lambda e: e.start)`: Python's
stable sort compares the `start` datetimes. -/
def eventLe (e1 e2 : Event) : Bool := !(decide (pyLt e2.start e1.start))

/-- String comparison used by `sorted` on category names. -/
def strLe (s t : String) : Bool := !(strLt t s)

/-- Python `calendar.day_name` (Monday first). -/
def dayNames : List String :=
  ["Monday", "Tuesday", "Wednesday", "Thursday", "Friday", "Saturday", "Sunday"]

/-- Python `calendar.day_abbr` (Monday first). -/
def dayAbbrs : List String := ["Mon", "Tue", "Wed", "Thu", "Fri", "Sat", "Sun"]

/-- Python `calendar.month_name` (index 0 is empty). -/
def monthNames : List String :=
  ["", "January", "February", "March", "April", "May", "June", "July",
   "August", "September", "October", "November", "December"]

/-- Python `calendar.month_abbr` (index 0 is empty). -/
def monthAbbrs : List String :=
  ["", "Jan", "Feb", "Mar", "Apr", "May", "Jun", "Jul", "Aug", "Sep", "Oct", "Nov", "Dec"]

/-- CPython `datetime._days_before_year`: days before January 1 of `y` in the
proleptic Gregorian calendar. -/
def daysBeforeYear (y : Nat) : Nat :=
  365 * (y - 1) + (y - 1) / 4 - (y - 1) / 100 + (y - 1) / 400

/-- CPython `datetime._days_before_month`: days in year `y` strictly before
month `m`. -/
def daysBeforeMonth (y m : Nat) : Nat :=
  (List.range (m - 1)).foldl (fun acc i => acc + daysInMonth y (i + 1)) 0

/-- CPython `date.toordinal()`: proleptic Gregorian ordinal, day 1 being
January 1 of year 1. -/
def toOrdinal (t : PyDateTime) : Nat :=
  daysBeforeYear t.year + daysBeforeMonth t.year t.month + t.day

/-- CPython `date.weekday()`: 0 = Monday … 6 = Sunday. -/
def weekday (t : PyDateTime) : Nat := (toOrdinal t + 6) % 7

/-- Two-digit zero-padded rendering as a string (strftime `%H`, `%M`). -/
def pad2s (n : Nat) : String := String.mk (pad2 n)

/-- Model of `views._format_event_time_range`: `HH:MM–HH:MM`. -/
def _format_event_time_range (start end_ : PyDateTime) : String :=
  pad2s start.hour ++ ":" ++ pad2s start.minute ++ "–" ++
    pad2s end_.hour ++ ":" ++ pad2s end_.minute

/-- One event line, as printed by both `views.render_day` and the per-day
listing of `views.render_week` (the two source sites are textually identical):
two spaces, the time range, two spaces, then the label, whose `[category] `
prefix exists only when the category string is non-empty (Python truthiness). -/
def eventLine (ev : Event) : String :=
  "  " ++ _format_event_time_range ev.start ev.end_ ++ "  " ++
    (if ev.category = "" then ev.description else "[" ++ ev.category ++ "] " ++ ev.description)

/-- The header line of `views.render_day`:
`"<Weekday>, <Month> <Day>, <Year>"`. -/
def dayHeader (date : PyDateTime) : String :=
  dayNames.getD (weekday date) "" ++ ", " ++ monthNames.getD date.month "" ++ " " ++
    toString date.day ++ ", " ++ toString date.year

/-- Model of `views.render_day` as the list of printed lines: header, a dash
separator of the header's length, then one line per event sorted by start. -/
def render_day (date : PyDateTime) (events : List Event) : List String :=
  let header := dayHeader date
  header :: String.mk (List.replicate header.length '-') ::
    (events.mergeSort eventLe).map eventLine

/-- Seconds-since-ordinal-zero of a datetime, as an exact rational; the
difference of two of these is `(t2 - t1).total_seconds()` idealised over ℚ
(the Python value is the nearest float). -/
def toSeconds (t : PyDateTime) : ℚ :=
  ((toOrdinal t * 86400 + t.hour * 3600 + t.minute * 60 + t.second : Nat) : ℚ) +
    (t.microsecond : ℚ) / 1000000

/-- Hours of an event: `(ev.end - ev.start).total_seconds() / 3600.0`. -/
def eventHours (ev : Event) : ℚ := (toSeconds ev.end_ - toSeconds ev.start) / 3600

/-- The aggregation key of `views._hours_by_category`:
`ev.category if ev.category else "Uncategorized"`. -/
def bucketOf (ev : Event) : String :=
  if ev.category = "" then "Uncategorized" else ev.category

/-- Insertion-ordered dictionary update `by_cat[key] = by_cat.get(key, 0.0) + hours`:
an existing key keeps its position, a new key is appended. -/
def addHours : List (String × ℚ) → String → ℚ → List (String × ℚ)
  | [], k, h => [(k, h)]
  | (k', v) :: rest, k, h =>
    if k' = k then (k', v + h) :: rest else (k', v) :: addHours rest k h

/-- Model of `views._hours_by_category`: fold the events through the
dictionary update, starting from the empty dict. -/
def _hours_by_category (events : List Event) : List (String × ℚ) :=
  events.foldl (fun m ev => addHours m (bucketOf ev) (eventHours ev)) []

/-- Dictionary lookup `by_cat[k]`, with 0 for a missing key. -/
def getHours : List (String × ℚ) → String → ℚ
  | [], _ => 0
  | (k', v) :: rest, k => if k' = k then v else getHours rest k

/-- Round to the nearest integer, ties to even: the rounding `%.1f` applies
(to the double nearest the true value; exact decimal ties may be broken either
way by the binary representation). -/
def roundHalfEven (x : ℚ) : ℤ :=
  let f := ⌊x⌋
  let r := x - f
  if r < 1/2 then f else if 1/2 < r then f + 1 else if f % 2 = 0 then f else f + 1

/-- Rendering of `f"{q:.1f}"`, idealised over ℚ. -/
def fmtOneDecimal (q : ℚ) : String :=
  let n := roundHalfEven (q * 10)
  if n < 0 then
    "-" ++ toString ((-n).toNat / 10) ++ "." ++ toString ((-n).toNat % 10)
  else toString (n.toNat / 10) ++ "." ++ toString (n.toNat % 10)

/-- Model of `views._format_hours`: `"1 hr"` for exactly 1, `"<int> hrs"` when
`hours == int(hours)` (i.e. the rational is integral), else one decimal. -/
def _format_hours (hours : ℚ) : String :=
  if hours = 1 then "1 hr"
  else if hours.den = 1 then toString hours.num ++ " hrs"
  else fmtOneDecimal hours ++ " hrs"

/-- Model of `timedelta(days=1)` on the date components: roll the day, month
and year as the proleptic Gregorian calendar requires. -/
def nextDay (t : PyDateTime) : PyDateTime :=
  if t.day < daysInMonth t.year t.month then { t with day := t.day + 1 }
  else if t.month < 12 then { t with month := t.month + 1, day := 1 }
  else { t with year := t.year + 1, month := 1, day := 1 }

/-- Model of `t + timedelta(days=n)`. -/
def addDays : Nat → PyDateTime → PyDateTime
  | 0, t => t
  | n + 1, t => nextDay (addDays n t)

/-- Python `t.replace(hour=0, minute=0, second=0, microsecond=0)`. -/
def midnight (t : PyDateTime) : PyDateTime :=
  { t with hour := 0, minute := 0, second := 0, microsecond := 0 }

/-- The constant `WEEKDAY_HEADER` of `constants.py`. -/
def WEEKDAY_HEADER : String := "Su Mo Tu We Th Fr Sa"

/-- Model of `views._week_range_label`. -/
def _week_range_label (week_start week_end : PyDateTime) (year : Nat) : String :=
  "Week of " ++ monthAbbrs.getD week_start.month "" ++ " " ++ toString week_start.day ++
    " – " ++ monthAbbrs.getD week_end.month "" ++ " " ++ toString week_end.day ++
    ", " ++ toString year

/-- A day-of-month cell `f"{day:2}"` (right-justified, width two). -/
def dayCell (n : Nat) : String := if n < 10 then " " ++ toString n else toString n

/-- The line of seven day numbers printed by `views.render_week`. -/
def dayNumbersLine (week_start : PyDateTime) : String :=
  String.intercalate " " ((List.range 7).map (fun i => dayCell (addDays i week_start).day))

/-- The per-category section of `views.render_week`: when the aggregate dict
is non-empty, a blank line, one line per category in sorted key order, and a
closing blank line. -/
def categoryLines (events : List Event) : List String :=
  let by_category := _hours_by_category events
  if by_category = [] then []
  else
    "" :: (((by_category.map Prod.fst).mergeSort strLe).map
      (fun cat => cat ++ ": " ++ _format_hours (getHours by_category cat))) ++ [""]

/-- The events listed under day `i` (0–6) of the week: the `by_day` bucket of
the calendar day of `week_start + i` (events bucketed by the midnight of their
own start), sorted by start. -/
def weekDayEvents (week_start : PyDateTime) (events : List Event) (i : Nat) : List Event :=
  (events.filter (fun ev => midnight ev.start = midnight (addDays i week_start))).mergeSort eventLe

/-- The lines printed for day `i` of the week: nothing when the bucket is
empty, else a blank line (from the leading `\n`), the `<DayAbbr> <m>/<d>`
header, and one line per event. -/
def dayListing (week_start : PyDateTime) (events : List Event) (i : Nat) : List String :=
  let day_date := midnight (addDays i week_start)
  let day_events := weekDayEvents week_start events i
  if day_events = [] then []
  else
    "" :: (dayAbbrs.getD (weekday day_date) "" ++ " " ++ toString day_date.month ++ "/" ++
      toString day_date.day) :: day_events.map eventLine

/-- Model of `views.render_week` as the list of printed lines.  The `month`
argument is accepted and unused, as in the source. -/
def render_week (year month : Nat) (week_start : PyDateTime) (events : List Event) :
    List String :=
  let week_end := addDays 6 week_start
  _week_range_label week_start week_end year :: WEEKDAY_HEADER :: dayNumbersLine week_start ::
    (categoryLines events ++ ((List.range 7).map (dayListing week_start events)).join)

/-! Facts about digit characters and the lexicographic order. -/

theorem digitChar_lt_iff {a b : Nat} (ha : a ≤ 9) (hb : b ≤ 9) :
    digitChar a < digitChar b ↔ a < b := by
  interval_cases a <;> interval_cases b <;> decide

theorem digitChar_inj {a b : Nat} (ha : a ≤ 9) (hb : b ≤ 9) :
    digitChar a = digitChar b ↔ a = b := by
  interval_cases a <;> interval_cases b <;> decide

theorem digitChar_isDigit {a : Nat} (ha : a ≤ 9) : (digitChar a).isDigit = true := by
  interval_cases a <;> decide

theorem digitVal_digitChar {a : Nat} (ha : a ≤ 9) : digitVal (digitChar a) = a := by
  interval_cases a <;> decide

theorem isDigit_toNat {c : Char} (h : c.isDigit = true) :
    48 ≤ c.toNat ∧ c.toNat ≤ 57 := by
  simp only [Char.isDigit, Bool.and_eq_true, decide_eq_true_eq, ge_iff_le] at h
  exact h

theorem digitVal_le_of_isDigit {c : Char} (h : c.isDigit = true) : digitVal c ≤ 9 := by
  have := isDigit_toNat h
  unfold digitVal
  omega

theorem digitChar_digitVal {c : Char} (h : c.isDigit = true) :
    digitChar (digitVal c) = c := by
  have h48 := isDigit_toNat h
  unfold digitChar digitVal
  have : 48 + (c.toNat - 48) = c.toNat := by omega
  rw [this, Char.ofNat_toNat]

theorem lexLt_irrefl (l : List Char) : lexLt l l = false := by
  induction l with
  | nil => rfl
  | cons a as ih => simp [lexLt, ih]

theorem lexLt_trans {l1 l2 l3 : List Char} (h1 : lexLt l1 l2 = true)
    (h2 : lexLt l2 l3 = true) : lexLt l1 l3 = true := by
  induction l1 generalizing l2 l3 with
  | nil =>
    cases l2 with
    | nil => simp [lexLt] at h1
    | cons b bs =>
      cases l3 with
      | nil => simp [lexLt] at h2
      | cons c cs => simp [lexLt]
  | cons a as ih =>
    cases l2 with
    | nil => simp [lexLt] at h1
    | cons b bs =>
      cases l3 with
      | nil => simp [lexLt] at h2
      | cons c cs =>
        simp only [lexLt] at h1 h2 ⊢
        by_cases hab : a < b
        · by_cases hbc : b < c
          · simp [lt_trans hab hbc]
          · by_cases hbc' : b = c
            · subst hbc'; simp [hab]
            · simp [hbc, hbc'] at h2
        · by_cases hab' : a = b
          · subst hab'
            simp only [if_neg hab, if_pos rfl] at h1
            by_cases hac : a < c
            · simp [hac]
            · by_cases hac' : a = c
              · subst hac'
                simp only [lt_irrefl, if_neg hac, if_pos rfl] at h2 ⊢
                exact ih h1 h2
              · simp [hac, hac'] at h2
          · simp [hab, hab'] at h1

theorem lexLt_asymm {l1 l2 : List Char} (h : lexLt l1 l2 = true) :
    lexLt l2 l1 = false := by
  induction l1 generalizing l2 with
  | nil =>
    cases l2 with
    | nil => simp [lexLt] at h
    | cons b bs => simp [lexLt]
  | cons a as ih =>
    cases l2 with
    | nil => simp [lexLt] at h
    | cons b bs =>
      simp only [lexLt] at h ⊢
      by_cases hab : a < b
      · have hba : ¬ b < a := asymm hab
        have hba' : b ≠ a := fun e => (e ▸ hab).false
        simp [hba, hba']
      · by_cases hab' : a = b
        · subst hab'
          simp only [if_neg hab, if_pos rfl] at h ⊢
          exact ih h
        · simp [hab, hab'] at h

theorem lexLt_eq_of_not_lt {l1 l2 : List Char} (h1 : lexLt l1 l2 = false)
    (h2 : lexLt l2 l1 = false) : l1 = l2 := by
  induction l1 generalizing l2 with
  | nil =>
    cases l2 with
    | nil => rfl
    | cons b bs => simp [lexLt] at h1
  | cons a as ih =>
    cases l2 with
    | nil => simp [lexLt] at h2
    | cons b bs =>
      simp only [lexLt] at h1 h2
      by_cases hab : a < b
      · simp [hab] at h1
      · by_cases hab' : a = b
        · subst hab'
          simp only [if_neg hab, if_pos rfl] at h1 h2
          rw [ih h1 h2]
        · by_cases hba : b < a
          · simp [hba] at h2
          · have : b = a := le_antisymm (not_lt.mp hab) (not_lt.mp hba)
            exact absurd this.symm hab'

theorem lexLt_cons_same (c : Char) (l1 l2 : List Char) :
    lexLt (c :: l1) (c :: l2) = lexLt l1 l2 := by
  simp [lexLt]

theorem lexLt_append {as bs : List Char} (h : as.length = bs.length)
    (cs ds : List Char) :
    lexLt (as ++ cs) (bs ++ ds) =
      (if as = bs then lexLt cs ds else lexLt as bs) := by
  induction as generalizing bs with
  | nil =>
    cases bs with
    | nil => simp
    | cons b bs => simp at h
  | cons a as ih =>
    cases bs with
    | nil => simp at h
    | cons b bs =>
      simp only [List.length_cons, Nat.add_right_cancel_iff] at h
      simp only [List.cons_append, lexLt]
      by_cases hab : a < b
      · have : a ≠ b := ne_of_lt hab
        simp [hab, this]
      · by_cases hab' : a = b
        · subst hab'
          simp only [List.append_eq, eq_self_iff_true, if_true, if_neg hab, ih h]
          by_cases he : as = bs
          · subst he; simp
          · simp [he, hab]
        · simp [hab, hab']

theorem pad2_inj {a b : Nat} (ha : a < 100) (hb : b < 100) :
    pad2 a = pad2 b ↔ a = b := by
  unfold pad2
  rw [List.cons.injEq, List.cons.injEq]
  rw [digitChar_inj (by omega) (by omega), digitChar_inj (by omega) (by omega)]
  constructor
  · rintro ⟨h1, h2, -⟩; omega
  · rintro rfl; exact ⟨rfl, rfl, rfl⟩

theorem pad2_lt {a b : Nat} (ha : a < 100) (hb : b < 100) :
    lexLt (pad2 a) (pad2 b) = decide (a < b) := by
  unfold pad2
  simp only [lexLt]
  rw [if_congr (digitChar_lt_iff (show a / 10 ≤ 9 by omega) (show b / 10 ≤ 9 by omega))
    rfl rfl]
  rw [if_congr (digitChar_inj (show a / 10 ≤ 9 by omega) (show b / 10 ≤ 9 by omega))
    rfl rfl]
  rw [if_congr (digitChar_lt_iff (show a % 10 ≤ 9 by omega) (show b % 10 ≤ 9 by omega))
    rfl rfl]
  rw [if_congr (digitChar_inj (show a % 10 ≤ 9 by omega) (show b % 10 ≤ 9 by omega))
    rfl rfl]
  by_cases h1 : a / 10 < b / 10 <;> by_cases h2 : a / 10 = b / 10 <;>
    by_cases h3 : a % 10 < b % 10 <;> by_cases h4 : a % 10 = b % 10 <;>
    simp [h1, h2, h3, h4] <;> omega

theorem pad4_eq (a : Nat) : pad4 a = pad2 (a / 100) ++ pad2 (a % 100) := by
  unfold pad4 pad2
  have h1 : a / 100 / 10 = a / 1000 := by omega
  have h2 : a / 100 % 10 = a / 100 % 10 := rfl
  have h3 : a % 100 / 10 = a / 10 % 10 := by omega
  have h4 : a % 100 % 10 = a % 10 := by omega
  simp [h1, h3, h4]

theorem pad4_inj {a b : Nat} (ha : a < 10000) (hb : b < 10000) :
    pad4 a = pad4 b ↔ a = b := by
  rw [pad4_eq, pad4_eq]
  constructor
  · intro h
    have hl : (pad2 (a / 100)).length = (pad2 (b / 100)).length := by simp [pad2]
    have h1 := List.append_inj_left h hl
    have h2 := List.append_inj_right h hl
    rw [pad2_inj (by omega) (by omega)] at h1
    rw [pad2_inj (by omega) (by omega)] at h2
    omega
  · rintro rfl; rfl

theorem pad4_lt {a b : Nat} (ha : a < 10000) (hb : b < 10000) :
    lexLt (pad4 a) (pad4 b) = decide (a < b) := by
  rw [pad4_eq, pad4_eq, lexLt_append (by simp [pad2])]
  by_cases h : a / 100 = b / 100
  · rw [if_pos ((pad2_inj (by omega) (by omega)).mpr h)]
    rw [pad2_lt (by omega) (by omega)]
    have : a < b ↔ a % 100 < b % 100 := by omega
    simp [this]
  · rw [if_neg (fun e => h ((pad2_inj (by omega) (by omega)).mp e))]
    rw [pad2_lt (by omega) (by omega)]
    have : a < b ↔ a / 100 < b / 100 := by omega
    simp [this]

theorem daysInMonth_le (y m : Nat) : daysInMonth y m ≤ 31 := by
  unfold daysInMonth
  split_ifs <;> omega

theorem isoChars_lt {a b : PyDateTime} (ha : ValidDateTime a) (hb : ValidDateTime b)
    (sa : a.second = 0) (ua : a.microsecond = 0)
    (sb : b.second = 0) (ub : b.microsecond = 0) :
    lexLt (isoChars a) (isoChars b) = decide (pyLt a b) := by
  have hdma := daysInMonth_le a.year a.month
  have hdmb := daysInMonth_le b.year b.month
  obtain ⟨ha1, ha2, ha3, ha4, ha5, ha6, ha7, ha8, -, -⟩ := ha
  obtain ⟨hb1, hb2, hb3, hb4, hb5, hb6, hb7, hb8, -, -⟩ := hb
  unfold isoChars
  rw [lexLt_append (by simp [pad4])]
  by_cases hy : a.year = b.year
  · rw [if_pos (by rw [hy]), lexLt_cons_same, lexLt_append (by simp [pad2])]
    by_cases hm : a.month = b.month
    · rw [if_pos (by rw [hm]), lexLt_cons_same, lexLt_append (by simp [pad2])]
      by_cases hd : a.day = b.day
      · rw [if_pos (by rw [hd]), lexLt_cons_same, lexLt_append (by simp [pad2])]
        by_cases hh : a.hour = b.hour
        · rw [if_pos (by rw [hh]), lexLt_cons_same]
          rw [pad2_lt (by omega) (by omega), decide_eq_decide]
          unfold pyLt
          omega
        · rw [if_neg (fun e => hh ((pad2_inj (by omega) (by omega)).mp e))]
          rw [pad2_lt (by omega) (by omega), decide_eq_decide]
          unfold pyLt
          omega
      · rw [if_neg (fun e => hd ((pad2_inj (by omega) (by omega)).mp e))]
        rw [pad2_lt (by omega) (by omega), decide_eq_decide]
        unfold pyLt
        omega
    · rw [if_neg (fun e => hm ((pad2_inj (by omega) (by omega)).mp e))]
      rw [pad2_lt (by omega) (by omega), decide_eq_decide]
      unfold pyLt
      omega
  · rw [if_neg (fun e => hy ((pad4_inj (by omega) (by omega)).mp e))]
    rw [pad4_lt (by omega) (by omega), decide_eq_decide]
    unfold pyLt
    omega

/-- The key order-preservation fact: on valid minute-precision datetimes, the
TEXT comparison of the stored encodings agrees with Python's `datetime`
comparison. -/
theorem strLt_iso {a b : PyDateTime} (ha : ValidDateTime a) (hb : ValidDateTime b)
    (sa : a.second = 0) (ua : a.microsecond = 0)
    (sb : b.second = 0) (ub : b.microsecond = 0) :
    strLt (_iso a) (_iso b) = decide (pyLt a b) :=
  isoChars_lt ha hb sa ua sb ub

theorem truncMinute_valid {t : PyDateTime} (h : ValidDateTime t) :
    ValidDateTime (truncMinute t) := by
  cases t
  unfold ValidDateTime truncMinute at *
  simp only at *
  omega

theorem parse_iso_iso {t : PyDateTime} (h : ValidDateTime t) :
    _parse_iso (_iso t) = some (truncMinute t) := by
  cases t with
  | mk ty tmo td th tmi ts tu =>
    have hdm := daysInMonth_le ty tmo
    obtain ⟨h1, h2, h3, h4, h5, h6, h7, h8, h9, h10⟩ := h
    simp only at h1 h2 h3 h4 h5 h6 h7 h8 h9 h10 hdm
    have e1 : (_iso ⟨ty, tmo, td, th, tmi, ts, tu⟩).data =
        [digitChar (ty / 1000), digitChar (ty / 100 % 10), digitChar (ty / 10 % 10),
         digitChar (ty % 10), '-', digitChar (tmo / 10), digitChar (tmo % 10), '-',
         digitChar (td / 10), digitChar (td % 10), 'T', digitChar (th / 10),
         digitChar (th % 10), ':', digitChar (tmi / 10), digitChar (tmi % 10)] := by
      simp [_iso, isoChars, pad4, pad2]
    unfold _parse_iso
    rw [e1]
    rw [parseChars]
    rw [if_pos (by
      simp only [Bool.and_eq_true, beq_self_eq_true, and_true]
      refine ⟨⟨⟨⟨⟨⟨⟨⟨⟨⟨⟨?_, ?_⟩, ?_⟩, ?_⟩, ?_⟩, ?_⟩, ?_⟩, ?_⟩, ?_⟩, ?_⟩, ?_⟩, ?_⟩ <;>
        exact digitChar_isDigit (by omega))]
    have ey : digitVal (digitChar (ty / 1000)) * 1000 + digitVal (digitChar (ty / 100 % 10)) * 100 +
        digitVal (digitChar (ty / 10 % 10)) * 10 + digitVal (digitChar (ty % 10)) = ty := by
      rw [digitVal_digitChar (by omega), digitVal_digitChar (by omega),
        digitVal_digitChar (by omega), digitVal_digitChar (by omega)]
      omega
    have emo : digitVal (digitChar (tmo / 10)) * 10 + digitVal (digitChar (tmo % 10)) = tmo := by
      rw [digitVal_digitChar (by omega), digitVal_digitChar (by omega)]; omega
    have ed : digitVal (digitChar (td / 10)) * 10 + digitVal (digitChar (td % 10)) = td := by
      rw [digitVal_digitChar (by omega), digitVal_digitChar (by omega)]; omega
    have eh : digitVal (digitChar (th / 10)) * 10 + digitVal (digitChar (th % 10)) = th := by
      rw [digitVal_digitChar (by omega), digitVal_digitChar (by omega)]; omega
    have emi : digitVal (digitChar (tmi / 10)) * 10 + digitVal (digitChar (tmi % 10)) = tmi := by
      rw [digitVal_digitChar (by omega), digitVal_digitChar (by omega)]; omega
    simp only [ey, emo, ed, eh, emi]
    rw [if_pos ⟨h1, h2, h3, h4, h5, h6, h7, h8, by simp, by simp⟩]
    rfl

theorem parse_iso_some {s : String} {t : PyDateTime} (h : _parse_iso s = some t) :
    s = _iso t ∧ ValidDateTime t ∧ t.second = 0 ∧ t.microsecond = 0 := by
  unfold _parse_iso at h
  cases s with
  | mk data =>
    simp only at h
    match data, h with
    | [y1, y2, y3, y4, c1, m1, m2, c2, d1, d2, c3, h1, h2, c4, n1, n2], h => ?_
    rw [parseChars] at h
    by_cases hg : (y1.isDigit && y2.isDigit && y3.isDigit && y4.isDigit &&
       m1.isDigit && m2.isDigit && d1.isDigit && d2.isDigit &&
       h1.isDigit && h2.isDigit && n1.isDigit && n2.isDigit &&
       c1 == '-' && c2 == '-' && c3 == 'T' && c4 == ':') = true
    case neg => rw [if_neg hg] at h; exact absurd h (by simp)
    rw [if_pos hg] at h
    simp only [Bool.and_eq_true, beq_iff_eq] at hg
    obtain ⟨⟨⟨⟨⟨⟨⟨⟨⟨⟨⟨⟨⟨⟨⟨hy1, hy2⟩, hy3⟩, hy4⟩, hm1⟩, hm2⟩, hd1⟩, hd2⟩, hh1⟩,
      hh2⟩, hn1⟩, hn2⟩, hc1⟩, hc2⟩, hc3⟩, hc4⟩ := hg
    by_cases hv : ValidDateTime
        ⟨digitVal y1 * 1000 + digitVal y2 * 100 + digitVal y3 * 10 + digitVal y4,
         digitVal m1 * 10 + digitVal m2, digitVal d1 * 10 + digitVal d2,
         digitVal h1 * 10 + digitVal h2, digitVal n1 * 10 + digitVal n2, 0, 0⟩
    case neg => rw [if_neg hv] at h; exact absurd h (by simp)
    rw [if_pos hv] at h
    have ht := Option.some.inj h
    subst ht
    have b1 := digitVal_le_of_isDigit hy1
    have b2 := digitVal_le_of_isDigit hy2
    have b3 := digitVal_le_of_isDigit hy3
    have b4 := digitVal_le_of_isDigit hy4
    have b5 := digitVal_le_of_isDigit hm1
    have b6 := digitVal_le_of_isDigit hm2
    have b7 := digitVal_le_of_isDigit hd1
    have b8 := digitVal_le_of_isDigit hd2
    have b9 := digitVal_le_of_isDigit hh1
    have b10 := digitVal_le_of_isDigit hh2
    have b11 := digitVal_le_of_isDigit hn1
    have b12 := digitVal_le_of_isDigit hn2
    refine ⟨?_, hv, rfl, rfl⟩
    subst hc1 hc2 hc3 hc4
    have : isoChars
        ⟨digitVal y1 * 1000 + digitVal y2 * 100 + digitVal y3 * 10 + digitVal y4,
         digitVal m1 * 10 + digitVal m2, digitVal d1 * 10 + digitVal d2,
         digitVal h1 * 10 + digitVal h2, digitVal n1 * 10 + digitVal n2, 0, 0⟩ =
        [y1, y2, y3, y4, '-', m1, m2, '-', d1, d2, 'T', h1, h2, ':', n1, n2] := by
      simp only [isoChars, pad4, pad2]
      have q1 : (digitVal y1 * 1000 + digitVal y2 * 100 + digitVal y3 * 10 + digitVal y4) / 1000
          = digitVal y1 := by omega
      have q2 : (digitVal y1 * 1000 + digitVal y2 * 100 + digitVal y3 * 10 + digitVal y4) / 100 % 10
          = digitVal y2 := by omega
      have q3 : (digitVal y1 * 1000 + digitVal y2 * 100 + digitVal y3 * 10 + digitVal y4) / 10 % 10
          = digitVal y3 := by omega
      have q4 : (digitVal y1 * 1000 + digitVal y2 * 100 + digitVal y3 * 10 + digitVal y4) % 10
          = digitVal y4 := by omega
      have q5 : (digitVal m1 * 10 + digitVal m2) / 10 = digitVal m1 := by omega
      have q6 : (digitVal m1 * 10 + digitVal m2) % 10 = digitVal m2 := by omega
      have q7 : (digitVal d1 * 10 + digitVal d2) / 10 = digitVal d1 := by omega
      have q8 : (digitVal d1 * 10 + digitVal d2) % 10 = digitVal d2 := by omega
      have q9 : (digitVal h1 * 10 + digitVal h2) / 10 = digitVal h1 := by omega
      have q10 : (digitVal h1 * 10 + digitVal h2) % 10 = digitVal h2 := by omega
      have q11 : (digitVal n1 * 10 + digitVal n2) / 10 = digitVal n1 := by omega
      have q12 : (digitVal n1 * 10 + digitVal n2) % 10 = digitVal n2 := by omega
      simp only [q1, q2, q3, q4, q5, q6, q7, q8, q9, q10, q11, q12,
        digitChar_digitVal hy1, digitChar_digitVal hy2, digitChar_digitVal hy3,
        digitChar_digitVal hy4, digitChar_digitVal hm1, digitChar_digitVal hm2,
        digitChar_digitVal hd1, digitChar_digitVal hd2, digitChar_digitVal hh1,
        digitChar_digitVal hh2, digitChar_digitVal hn1, digitChar_digitVal hn2]
      simp
    unfold _iso
    rw [this]

theorem pyLt_irrefl (a : PyDateTime) : ¬ pyLt a a := by
  unfold pyLt; omega

theorem pyLt_trans {a b c : PyDateTime} (h1 : pyLt a b) (h2 : pyLt b c) : pyLt a c := by
  unfold pyLt at *; omega

theorem pyLe_trans {a b c : PyDateTime} (h1 : ¬ pyLt b a) (h2 : ¬ pyLt c b) : ¬ pyLt c a := by
  unfold pyLt at *; omega

theorem pyLt_total {a b : PyDateTime} (h1 : ¬ pyLt a b) (h2 : ¬ pyLt b a) : a = b := by
  cases a
  cases b
  unfold pyLt at *
  simp only at *
  simp only [PyDateTime.mk.injEq]
  omega

theorem lexLt_total (a b : List Char) : lexLt a b = false ∨ lexLt b a = false := by
  cases h : lexLt a b with
  | false => exact Or.inl rfl
  | true => exact Or.inr (lexLt_asymm h)

theorem lexLt_false_trans {a b c : List Char} (h1 : lexLt b a = false)
    (h2 : lexLt c b = false) : lexLt c a = false := by
  by_contra hca
  rw [Bool.not_eq_false] at hca
  cases hab : lexLt a b with
  | true => exact absurd (lexLt_trans hca hab) (by rw [h2]; simp)
  | false =>
    have hba := lexLt_eq_of_not_lt hab h1
    rw [hba] at hca
    rw [hca] at h2
    exact absurd h2 (by simp)

theorem rowLe_trans (r1 r2 r3 : Row) (h1 : rowLe r1 r2) (h2 : rowLe r2 r3) :
    rowLe r1 r3 := by
  unfold rowLe strLt at *
  simp only [Bool.not_eq_true'] at *
  exact lexLt_false_trans h1 h2

theorem rowLe_total (r1 r2 : Row) : rowLe r1 r2 || rowLe r2 r1 := by
  unfold rowLe strLt
  rcases lexLt_total r2.start.data r1.start.data with h | h <;> simp [h]

theorem eventLe_trans (e1 e2 e3 : Event) (h1 : eventLe e1 e2) (h2 : eventLe e2 e3) :
    eventLe e1 e3 := by
  unfold eventLe at *
  simp only [Bool.not_eq_true', decide_eq_false_iff_not] at *
  exact pyLe_trans h1 h2

theorem eventLe_total (e1 e2 : Event) : eventLe e1 e2 || eventLe e2 e1 := by
  unfold eventLe
  by_cases h : pyLt e2.start e1.start
  · have h2 : ¬ pyLt e1.start e2.start := fun h' => pyLt_irrefl _ (pyLt_trans h h')
    simp [h, h2]
  · simp [h]

theorem opt_eq_some_iget {α : Type} [Inhabited α] {o : Option α} (h : o.isSome) :
    o = some o.iget := by
  cases o with
  | none => simp at h
  | some a => rfl

theorem mapM_eq_some_map {α β : Type} (f : α → Option β) (g : α → β) :
    ∀ l : List α, (∀ x ∈ l, f x = some (g x)) → l.mapM f = some (l.map g) := by
  intro l
  induction l with
  | nil => intro _; rfl
  | cons a l ih =>
    intro h
    rw [List.mapM_cons, h a (by simp), ih (fun x hx => h x (by simp [hx]))]
    rfl

theorem mapM_mem_some {α β : Type} {f : α → Option β} :
    ∀ {l : List α} {l' : List β}, l.mapM f = some l' → ∀ y ∈ l', ∃ x ∈ l, f x = some y := by
  intro l
  induction l with
  | nil =>
    intro l' h y hy
    simp only [List.mapM_nil] at h
    cases h
    simp at hy
  | cons a l ih =>
    intro l' h y hy
    rw [List.mapM_cons] at h
    cases ha : f a with
    | none => rw [ha] at h; simp at h
    | some b =>
      rw [ha] at h
      cases hl : l.mapM f with
      | none => rw [hl] at h; simp at h
      | some bs =>
        rw [hl] at h
        simp at h
        subst h
        rcases List.mem_cons.mp hy with rfl | hy'
        · exact ⟨a, by simp, ha⟩
        · obtain ⟨x, hx, hfx⟩ := ih hl y hy'
          exact ⟨x, by simp [hx], hfx⟩

theorem eventOfRow_spec {r : Row} (h1 : (_parse_iso r.start).isSome)
    (h2 : (_parse_iso r.end_).isSome) :
    ∃ e, eventOfRow r = some e ∧ e.description = r.description ∧ e.category = r.category ∧
      r.start = _iso e.start ∧ r.end_ = _iso e.end_ ∧
      ValidDateTime e.start ∧ e.start.second = 0 ∧ e.start.microsecond = 0 ∧
      ValidDateTime e.end_ ∧ e.end_.second = 0 ∧ e.end_.microsecond = 0 := by
  obtain ⟨s, hs⟩ := Option.isSome_iff_exists.mp h1
  obtain ⟨e0, he⟩ := Option.isSome_iff_exists.mp h2
  obtain ⟨hs1, hs2, hs3, hs4⟩ := parse_iso_some hs
  obtain ⟨he1, he2, he3, he4⟩ := parse_iso_some he
  refine ⟨⟨r.description, r.category, s, e0⟩, ?_, rfl, rfl, hs1, he1, hs2, hs3, hs4, he2, he3, he4⟩
  unfold eventOfRow
  rw [hs, he]

theorem filter_mergeSort_of_ties {α : Type} (le : α → α → Bool)
    (htrans : ∀ a b c : α, le a b → le b c → le a c)
    (htotal : ∀ a b : α, le a b || le b a)
    (p : α → Bool) (l : List α)
    (hties : ∀ a ∈ l, ∀ b ∈ l, p a = true → p b = true → le a b = true) :
    (l.mergeSort le).filter p = l.filter p := by
  have hpw : (l.filter p).Pairwise (fun a b => le a b) := by
    apply List.pairwise_of_forall_mem_list
    intro a ha b hb
    exact hties a (List.mem_filter.mp ha).1 b (List.mem_filter.mp hb).1
      (List.mem_filter.mp ha).2 (List.mem_filter.mp hb).2
  have hsub : List.Sublist (l.filter p) (l.mergeSort le) :=
    List.sublist_mergeSort htrans htotal hpw (List.filter_sublist l)
  have h2 : List.Sublist (l.filter p) ((l.mergeSort le).filter p) := by
    have h := hsub.filter p
    rwa [List.filter_filter, (by simp : (fun a => p a && p a) = fun a => p a)] at h
  have h3 : ((l.mergeSort le).filter p).length = (l.filter p).length :=
    ((List.mergeSort_perm l le).filter p).length_eq
  exact (h2.eq_of_length h3.symm).symm

theorem eventOfRow_isSome {r : Row} (h1 : (_parse_iso r.start).isSome)
    (h2 : (_parse_iso r.end_).isSome) : (eventOfRow r).isSome := by
  obtain ⟨e, he, -⟩ := eventOfRow_spec h1 h2
  rw [he]
  rfl

theorem events_in_range_eq {db : List Row} (a b : PyDateTime) (hdb : WellFormedDB db) :
    events_in_range db a b =
      some (((db.filter (overlaps (_iso a) (_iso b))).mergeSort rowLe).map
        (fun r => (eventOfRow r).iget)) := by
  unfold events_in_range
  apply mapM_eq_some_map
  intro r hr
  rw [List.mem_mergeSort] at hr
  have hrdb : r ∈ db := (List.mem_filter.mp hr).1
  obtain ⟨h1, h2⟩ := hdb r hrdb
  exact opt_eq_some_iget (eventOfRow_isSome h1 h2)

/-- Claim C1: for every stored event `e` and every (minute-precision) query
window `[a, b)`, `events_in_range a b` returns `e` iff `e.start < b` and
`e.end > a`; in particular an event with `e.end = a` and an event with
`e.start = b` are both excluded. -/
theorem claim_C1 (db : List Row) (a b : PyDateTime) (e : Event)
    (hdb : WellFormedDB db)
    (hav : ValidDateTime a) (has : a.second = 0) (hau : a.microsecond = 0)
    (hbv : ValidDateTime b) (hbs : b.second = 0) (hbu : b.microsecond = 0)
    (hst : storedEvent db e) :
    ∃ l, events_in_range db a b = some l ∧
      (e ∈ l ↔ (pyLt e.start b ∧ pyLt a e.end_)) ∧
      (e.end_ = a → e ∉ l) ∧ (e.start = b → e ∉ l) := by
  have hiff : e ∈ ((db.filter (overlaps (_iso a) (_iso b))).mergeSort rowLe).map
      (fun r => (eventOfRow r).iget) ↔ (pyLt e.start b ∧ pyLt a e.end_) := ?_
  · refine ⟨_, events_in_range_eq a b hdb, hiff, ?_, ?_⟩
    · intro hea hmem
      have := (hiff.mp hmem).2
      rw [hea] at this
      exact pyLt_irrefl a this
    · intro heb hmem
      have := (hiff.mp hmem).1
      rw [heb] at this
      exact pyLt_irrefl b this
  constructor
  · intro hmem
    obtain ⟨r, hr, hre⟩ := List.mem_map.mp hmem
    rw [List.mem_mergeSort] at hr
    obtain ⟨hrdb, hov⟩ := List.mem_filter.mp hr
    obtain ⟨hp1, hp2⟩ := hdb r hrdb
    obtain ⟨e', he', -, -, hstart, hend, hv1, hz1, hz2, hv2, hz3, hz4⟩ :=
      eventOfRow_spec hp1 hp2
    have hig : (eventOfRow r).iget = e' := by rw [he']
    rw [hig] at hre
    subst hre
    unfold overlaps at hov
    rw [Bool.and_eq_true] at hov
    obtain ⟨ho1, ho2⟩ := hov
    rw [hstart, strLt_iso hv1 hbv hz1 hz2 hbs hbu] at ho1
    rw [hend, strLt_iso hav hv2 has hau hz3 hz4] at ho2
    exact ⟨of_decide_eq_true ho1, of_decide_eq_true ho2⟩
  · rintro ⟨hlt1, hlt2⟩
    obtain ⟨r, hrdb, hre⟩ := hst
    apply List.mem_map.mpr
    refine ⟨r, ?_, by rw [hre]⟩
    rw [List.mem_mergeSort]
    apply List.mem_filter.mpr
    refine ⟨hrdb, ?_⟩
    obtain ⟨hp1, hp2⟩ := hdb r hrdb
    obtain ⟨e', he', -, -, hstart, hend, hv1, hz1, hz2, hv2, hz3, hz4⟩ :=
      eventOfRow_spec hp1 hp2
    have hee : e' = e := Option.some.inj (he' ▸ hre)
    subst hee
    unfold overlaps
    rw [hstart, hend, strLt_iso hv1 hbv hz1 hz2 hbs hbu,
      strLt_iso hav hv2 has hau hz3 hz4]
    simp [hlt1, hlt2]

/-- Witness for C1: a one-event database queried with the containing day
window; the event is returned and the boundary conditions hold. -/
theorem claim_C1_witness :
    ∃ l, events_in_range
        (add_event [] ⟨"standup", "Work", ⟨2025, 1, 6, 9, 0, 0, 0⟩, ⟨2025, 1, 6, 10, 0, 0, 0⟩⟩)
        ⟨2025, 1, 6, 0, 0, 0, 0⟩ ⟨2025, 1, 7, 0, 0, 0, 0⟩ = some l ∧
      ((⟨"standup", "Work", ⟨2025, 1, 6, 9, 0, 0, 0⟩, ⟨2025, 1, 6, 10, 0, 0, 0⟩⟩ : Event) ∈ l ↔
        (pyLt ⟨2025, 1, 6, 9, 0, 0, 0⟩ ⟨2025, 1, 7, 0, 0, 0, 0⟩ ∧
          pyLt ⟨2025, 1, 6, 0, 0, 0, 0⟩ ⟨2025, 1, 6, 10, 0, 0, 0⟩)) ∧
      ((⟨2025, 1, 6, 10, 0, 0, 0⟩ : PyDateTime) = ⟨2025, 1, 6, 0, 0, 0, 0⟩ →
        (⟨"standup", "Work", ⟨2025, 1, 6, 9, 0, 0, 0⟩, ⟨2025, 1, 6, 10, 0, 0, 0⟩⟩ : Event) ∉ l) ∧
      ((⟨2025, 1, 6, 9, 0, 0, 0⟩ : PyDateTime) = ⟨2025, 1, 7, 0, 0, 0, 0⟩ →
        (⟨"standup", "Work", ⟨2025, 1, 6, 9, 0, 0, 0⟩, ⟨2025, 1, 6, 10, 0, 0, 0⟩⟩ : Event) ∉ l) :=
  claim_C1 _ _ _ _ (by decide) (by decide) rfl rfl (by decide) rfl rfl (by decide)

/-- Claim C2: query results are sorted ascending by event start, and events
with equal start timestamps appear in insertion (rowid) order: for each start
value, restricting the result to that start gives exactly the same sequence as
restricting the unsorted insertion-ordered filtered table. -/
theorem claim_C2 (db : List Row) (a b : PyDateTime) (l : List Event)
    (hdb : WellFormedDB db) (h : events_in_range db a b = some l) :
    l.Pairwise (fun e1 e2 => ¬ pyLt e2.start e1.start) ∧
    ∀ t : PyDateTime, l.filter (fun e => e.start = t) =
      ((db.filter (overlaps (_iso a) (_iso b))).map (fun r => (eventOfRow r).iget)).filter
        (fun e => e.start = t) := by
  rw [events_in_range_eq a b hdb] at h
  have hl : l = ((db.filter (overlaps (_iso a) (_iso b))).mergeSort rowLe).map
      (fun r => (eventOfRow r).iget) := (Option.some.inj h).symm
  subst hl
  constructor
  · rw [List.pairwise_map]
    have hs := List.sorted_mergeSort rowLe_trans rowLe_total
      (db.filter (overlaps (_iso a) (_iso b)))
    apply List.Pairwise.imp_of_mem ?_ hs
    intro r1 r2 h1 h2 hle
    rw [List.mem_mergeSort] at h1 h2
    obtain ⟨p1, p2⟩ := hdb r1 (List.mem_filter.mp h1).1
    obtain ⟨p3, p4⟩ := hdb r2 (List.mem_filter.mp h2).1
    obtain ⟨e1, he1, -, -, hs1, -, hv1, hz1, hz2, -, -, -⟩ := eventOfRow_spec p1 p2
    obtain ⟨e2, he2, -, -, hs2, -, hv2, hz3, hz4, -, -, -⟩ := eventOfRow_spec p3 p4
    have hg1 : (eventOfRow r1).iget = e1 := by rw [he1]
    have hg2 : (eventOfRow r2).iget = e2 := by rw [he2]
    rw [hg1, hg2]
    unfold rowLe at hle
    rw [Bool.not_eq_eq_eq_not, Bool.not_true] at hle
    rw [hs2, hs1, strLt_iso hv2 hv1 hz3 hz4 hz1 hz2] at hle
    exact of_decide_eq_false hle
  · intro t
    rw [List.filter_map, List.filter_map]
    congr 1
    apply filter_mergeSort_of_ties rowLe rowLe_trans rowLe_total
    intro r1 hr1 r2 hr2 hp1 hp2
    obtain ⟨p1, p2⟩ := hdb r1 (List.mem_filter.mp hr1).1
    obtain ⟨p3, p4⟩ := hdb r2 (List.mem_filter.mp hr2).1
    obtain ⟨e1, he1, -, -, hs1, -, -, -, -, -, -, -⟩ := eventOfRow_spec p1 p2
    obtain ⟨e2, he2, -, -, hs2, -, -, -, -, -, -, -⟩ := eventOfRow_spec p3 p4
    simp only [Function.comp, he1, he2, Option.iget_some, decide_eq_true_eq] at hp1 hp2
    have ht1 : e1.start = t := hp1
    have ht2 : e2.start = t := hp2
    have hq1 : r1.start = _iso t := by rw [hs1, ht1]
    have hq2 : r2.start = _iso t := by rw [hs2, ht2]
    unfold rowLe strLt
    rw [hq1, hq2]
    simp [lexLt_irrefl]

/-- Witness for C2: two events inserted with the same start time are returned
sorted and, among the equal starts, in insertion order. -/
theorem claim_C2_witness :
    (([⟨"a", "Work", ⟨2025, 1, 6, 9, 0, 0, 0⟩, ⟨2025, 1, 6, 10, 0, 0, 0⟩⟩,
       ⟨"b", "", ⟨2025, 1, 6, 9, 0, 0, 0⟩, ⟨2025, 1, 6, 9, 30, 0, 0⟩⟩] : List Event).Pairwise
      (fun e1 e2 => ¬ pyLt e2.start e1.start)) ∧
    (∀ t : PyDateTime,
      ([⟨"a", "Work", ⟨2025, 1, 6, 9, 0, 0, 0⟩, ⟨2025, 1, 6, 10, 0, 0, 0⟩⟩,
        ⟨"b", "", ⟨2025, 1, 6, 9, 0, 0, 0⟩, ⟨2025, 1, 6, 9, 30, 0, 0⟩⟩] : List Event).filter
        (fun e => e.start = t) =
      (((add_event (add_event []
            ⟨"a", "Work", ⟨2025, 1, 6, 9, 0, 0, 0⟩, ⟨2025, 1, 6, 10, 0, 0, 0⟩⟩)
            ⟨"b", "", ⟨2025, 1, 6, 9, 0, 0, 0⟩, ⟨2025, 1, 6, 9, 30, 0, 0⟩⟩).filter
          (overlaps (_iso ⟨2025, 1, 6, 8, 0, 0, 0⟩) (_iso ⟨2025, 1, 6, 11, 0, 0, 0⟩))).map
        (fun r => (eventOfRow r).iget)).filter (fun e => e.start = t)) :=
  claim_C2
    (add_event (add_event [] ⟨"a", "Work", ⟨2025, 1, 6, 9, 0, 0, 0⟩, ⟨2025, 1, 6, 10, 0, 0, 0⟩⟩)
      ⟨"b", "", ⟨2025, 1, 6, 9, 0, 0, 0⟩, ⟨2025, 1, 6, 9, 30, 0, 0⟩⟩)
    ⟨2025, 1, 6, 8, 0, 0, 0⟩ ⟨2025, 1, 6, 11, 0, 0, 0⟩ _ (by decide)
    (by
      rw [events_in_range_eq _ _ (by decide)]
      rw [List.mergeSort_of_sorted (by decide)]
      decide)

theorem truncMinute_eq {t : PyDateTime} (hz1 : t.second = 0) (hz2 : t.microsecond = 0) :
    truncMinute t = t := by
  cases t
  simp only at hz1 hz2
  simp [truncMinute, hz1, hz2]

/-- Claim C3: adding a well-formed minute-precision event and querying any
minute-precision window that fully contains it returns a record equal to the
event in all four fields. -/
theorem claim_C3 (db : List Row) (E : Event) (a b : PyDateTime)
    (hdb : WellFormedDB db)
    (hEs : ValidDateTime E.start) (hEz1 : E.start.second = 0) (hEz2 : E.start.microsecond = 0)
    (hEe : ValidDateTime E.end_) (hEz3 : E.end_.second = 0) (hEz4 : E.end_.microsecond = 0)
    (hwf : pyLt E.start E.end_)
    (hav : ValidDateTime a) (has : a.second = 0) (hau : a.microsecond = 0)
    (hbv : ValidDateTime b) (hbs : b.second = 0) (hbu : b.microsecond = 0)
    (h1 : ¬ pyLt E.start a) (h2 : ¬ pyLt b E.end_) :
    ∃ l, events_in_range (add_event db E) a b = some l ∧ E ∈ l := by
  have hnew : eventOfRow ⟨E.description, E.category, _iso E.start, _iso E.end_⟩ = some E := by
    unfold eventOfRow
    simp only
    rw [parse_iso_iso hEs, parse_iso_iso hEe]
    rw [truncMinute_eq hEz1 hEz2, truncMinute_eq hEz3 hEz4]
  have hdb' : WellFormedDB (add_event db E) := by
    intro r hr
    unfold add_event at hr
    rcases List.mem_append.mp hr with h | h
    · exact hdb r h
    · simp only [List.mem_singleton] at h
      subst h
      constructor
      · show (_parse_iso (_iso E.start)).isSome = true
        rw [parse_iso_iso hEs]
        rfl
      · show (_parse_iso (_iso E.end_)).isSome = true
        rw [parse_iso_iso hEe]
        rfl
  refine ⟨_, events_in_range_eq a b hdb', ?_⟩
  apply List.mem_map.mpr
  refine ⟨⟨E.description, E.category, _iso E.start, _iso E.end_⟩, ?_, by rw [hnew]⟩
  rw [List.mem_mergeSort]
  apply List.mem_filter.mpr
  constructor
  · unfold add_event
    simp
  · unfold overlaps
    have hc1 : pyLt E.start b := by unfold pyLt at hwf h2 ⊢; omega
    have hc2 : pyLt a E.end_ := by unfold pyLt at hwf h1 ⊢; omega
    show (strLt (_iso E.start) (_iso b) && strLt (_iso a) (_iso E.end_)) = true
    rw [strLt_iso hEs hbv hEz1 hEz2 hbs hbu, strLt_iso hav hEe has hau hEz3 hEz4]
    simp [hc1, hc2]

/-- Witness for C3: adding one event to the empty store and querying its day
returns it. -/
theorem claim_C3_witness :
    ∃ l, events_in_range
        (add_event [] ⟨"standup", "Work", ⟨2025, 2, 24, 9, 0, 0, 0⟩, ⟨2025, 2, 24, 9, 30, 0, 0⟩⟩)
        ⟨2025, 2, 24, 0, 0, 0, 0⟩ ⟨2025, 2, 25, 0, 0, 0, 0⟩ = some l ∧
      (⟨"standup", "Work", ⟨2025, 2, 24, 9, 0, 0, 0⟩, ⟨2025, 2, 24, 9, 30, 0, 0⟩⟩ : Event) ∈ l :=
  claim_C3 [] ⟨"standup", "Work", ⟨2025, 2, 24, 9, 0, 0, 0⟩, ⟨2025, 2, 24, 9, 30, 0, 0⟩⟩
    ⟨2025, 2, 24, 0, 0, 0, 0⟩ ⟨2025, 2, 25, 0, 0, 0, 0⟩
    (by decide) (by decide) rfl rfl (by decide) rfl rfl (by decide)
    (by decide) rfl rfl (by decide) rfl rfl (by decide) (by decide)

/-- Claim C4: the textual timestamp encoding is order-preserving on
minute-precision datetimes: `_iso t1` is lexicographically below `_iso t2`
exactly when `t1` is chronologically before `t2` (Python datetime order),
hence the TEXT comparisons of the overlap query agree with chronological
comparisons. -/
theorem claim_C4 (t1 t2 : PyDateTime)
    (h1 : ValidDateTime t1) (hz1 : t1.second = 0) (hz2 : t1.microsecond = 0)
    (h2 : ValidDateTime t2) (hz3 : t2.second = 0) (hz4 : t2.microsecond = 0) :
    (strLt (_iso t1) (_iso t2) = true ↔ pyLt t1 t2) ∧
    (∀ r : Row, overlaps (_iso t1) (_iso t2) r = (strLt r.start (_iso t2) &&
      strLt (_iso t1) r.end_)) := by
  constructor
  · rw [strLt_iso h1 h2 hz1 hz2 hz3 hz4]
    exact decide_eq_true_iff
  · intro r
    rfl

/-- Witness for C4: the encoding orders a year-end minute before the next
new-year minute. -/
theorem claim_C4_witness :
    (strLt (_iso ⟨2024, 12, 31, 23, 59, 0, 0⟩) (_iso ⟨2025, 1, 1, 0, 0, 0, 0⟩) = true ↔
      pyLt ⟨2024, 12, 31, 23, 59, 0, 0⟩ ⟨2025, 1, 1, 0, 0, 0, 0⟩) ∧
    (∀ r : Row, overlaps (_iso ⟨2024, 12, 31, 23, 59, 0, 0⟩) (_iso ⟨2025, 1, 1, 0, 0, 0, 0⟩) r =
      (strLt r.start (_iso ⟨2025, 1, 1, 0, 0, 0, 0⟩) &&
        strLt (_iso ⟨2024, 12, 31, 23, 59, 0, 0⟩) r.end_)) :=
  claim_C4 ⟨2024, 12, 31, 23, 59, 0, 0⟩ ⟨2025, 1, 1, 0, 0, 0, 0⟩
    (by decide) rfl rfl (by decide) rfl rfl

/-- Claim C10: `add_event` stores timestamps truncated (not rounded) to the
minute: the inserted row's columns parse back to the original fields with the
seconds and microseconds dropped; and every event returned by
`events_in_range` has zero seconds and microseconds. -/
theorem claim_C10 (db : List Row) (ev : Event)
    (h1 : ValidDateTime ev.start) (h2 : ValidDateTime ev.end_) :
    (∃ r, add_event db ev = db ++ [r] ∧
      _parse_iso r.start =
        some ⟨ev.start.year, ev.start.month, ev.start.day, ev.start.hour,
          ev.start.minute, 0, 0⟩ ∧
      _parse_iso r.end_ =
        some ⟨ev.end_.year, ev.end_.month, ev.end_.day, ev.end_.hour,
          ev.end_.minute, 0, 0⟩) ∧
    (∀ a b : PyDateTime, ∀ l : List Event, events_in_range db a b = some l →
      ∀ e ∈ l, e.start.second = 0 ∧ e.start.microsecond = 0 ∧
        e.end_.second = 0 ∧ e.end_.microsecond = 0) := by
  constructor
  · refine ⟨⟨ev.description, ev.category, _iso ev.start, _iso ev.end_⟩, rfl, ?_, ?_⟩
    · show _parse_iso (_iso ev.start) = _
      rw [parse_iso_iso h1]
      rfl
    · show _parse_iso (_iso ev.end_) = _
      rw [parse_iso_iso h2]
      rfl
  · intro a b l h e he
    unfold events_in_range at h
    obtain ⟨r, -, hr⟩ := mapM_mem_some h e he
    unfold eventOfRow at hr
    cases hp1 : _parse_iso r.start with
    | none => rw [hp1] at hr; simp at hr
    | some s =>
      cases hp2 : _parse_iso r.end_ with
      | none => rw [hp1, hp2] at hr; simp at hr
      | some e0 =>
        rw [hp1, hp2] at hr
        simp only [Option.some.injEq] at hr
        subst hr
        obtain ⟨-, -, hzs1, hzs2⟩ := parse_iso_some hp1
        obtain ⟨-, -, hzs3, hzs4⟩ := parse_iso_some hp2
        exact ⟨hzs1, hzs2, hzs3, hzs4⟩

/-- Witness for C10: an event carrying 45 seconds and microseconds is stored
with them dropped, the minute unchanged. -/
theorem claim_C10_witness :
    (∃ r, add_event [] ⟨"sync", "Ops", ⟨2025, 2, 24, 9, 0, 45, 123456⟩,
        ⟨2025, 2, 24, 9, 59, 59, 999999⟩⟩ = [] ++ [r] ∧
      _parse_iso r.start = some ⟨2025, 2, 24, 9, 0, 0, 0⟩ ∧
      _parse_iso r.end_ = some ⟨2025, 2, 24, 9, 59, 0, 0⟩) ∧
    (∀ a b : PyDateTime, ∀ l : List Event, events_in_range [] a b = some l →
      ∀ e ∈ l, e.start.second = 0 ∧ e.start.microsecond = 0 ∧
        e.end_.second = 0 ∧ e.end_.microsecond = 0) :=
  claim_C10 [] ⟨"sync", "Ops", ⟨2025, 2, 24, 9, 0, 45, 123456⟩, ⟨2025, 2, 24, 9, 59, 59, 999999⟩⟩
    (by decide) (by decide)

theorem strLe_trans (s1 s2 s3 : String) (h1 : strLe s1 s2) (h2 : strLe s2 s3) :
    strLe s1 s3 := by
  unfold strLe strLt at *
  simp only [Bool.not_eq_eq_eq_not, Bool.not_true] at *
  exact lexLt_false_trans h1 h2

theorem strLe_total (s1 s2 : String) : strLe s1 s2 || strLe s2 s1 := by
  unfold strLe strLt
  rcases lexLt_total s2.data s1.data with h | h <;> simp [h]

theorem mergeSort_pair {α : Type} (le : α → α → Bool) (a b : α) :
    List.mergeSort [a, b] le = if le a b then [a, b] else [b, a] := by
  rw [List.mergeSort]
  simp [List.splitInTwo, List.mergeSort, List.merge]

theorem getHours_addHours (m : List (String × ℚ)) (k : String) (h : ℚ) (c : String) :
    getHours (addHours m k h) c = getHours m c + (if k = c then h else 0) := by
  induction m with
  | nil =>
    by_cases hkc : k = c <;> simp [addHours, getHours, hkc]
  | cons p rest ih =>
    obtain ⟨k', v⟩ := p
    by_cases hk : k' = k
    · subst hk
      by_cases hkc : k' = c <;> simp [addHours, getHours, hkc]
    · by_cases hkc : k' = c
      · subst hkc
        have : ¬ (k = k') := fun e => hk e.symm
        simp [addHours, getHours, hk, this]
      · simp [addHours, getHours, hk, hkc, ih]

theorem getHours_foldl (events : List Event) (m : List (String × ℚ)) (c : String) :
    getHours (events.foldl (fun acc ev => addHours acc (bucketOf ev) (eventHours ev)) m) c =
      getHours m c + ((events.filter (fun e => bucketOf e = c)).map eventHours).sum := by
  induction events generalizing m with
  | nil => simp
  | cons e evs ih =>
    rw [List.foldl_cons, ih, getHours_addHours]
    by_cases hb : bucketOf e = c
    · simp [List.filter_cons, hb]
      ring
    · simp [List.filter_cons, hb]

/-- Claim C5: per-category totals sum the events' fractional-hour durations,
with the empty category bucketed as "Uncategorized"; the week view prints them
in sorted (alphabetical) key order; totals format as "1 hr" at exactly 1, as
"<int> hrs" for any other integer, and with one decimal otherwise; and the
three-event example renders "Uncategorized: 2 hrs" then "Work: 1.5 hrs". -/
theorem claim_C5 (events : List Event) (c : String) :
    getHours (_hours_by_category events) c =
      ((events.filter (fun e => bucketOf e = c)).map eventHours).sum ∧
    (∀ ev : Event, ev.category = "" → bucketOf ev = "Uncategorized") ∧
    (∀ ev : Event, ev.category ≠ "" → bucketOf ev = ev.category) ∧
    _format_hours 1 = "1 hr" ∧
    (∀ q : ℚ, q ≠ 1 → q.den = 1 → _format_hours q = toString q.num ++ " hrs") ∧
    (∀ q : ℚ, q.den ≠ 1 → _format_hours q = fmtOneDecimal q ++ " hrs") ∧
    (((_hours_by_category events).map Prod.fst).mergeSort strLe).Pairwise
      (fun c1 c2 => strLe c1 c2 = true) ∧
    categoryLines [⟨"e1", "Work", ⟨2025, 1, 6, 9, 0, 0, 0⟩, ⟨2025, 1, 6, 10, 0, 0, 0⟩⟩,
      ⟨"e2", "Work", ⟨2025, 1, 6, 10, 0, 0, 0⟩, ⟨2025, 1, 6, 10, 30, 0, 0⟩⟩,
      ⟨"e3", "", ⟨2025, 1, 6, 12, 0, 0, 0⟩, ⟨2025, 1, 6, 14, 0, 0, 0⟩⟩] =
      ["", "Uncategorized: 2 hrs", "Work: 1.5 hrs", ""] := by
  refine ⟨?_, ?_, ?_, ?_, ?_, ?_, ?_, ?_⟩
  · unfold _hours_by_category
    rw [getHours_foldl]
    simp [getHours]
  · intro ev h
    simp [bucketOf, h]
  · intro ev h
    simp [bucketOf, h]
  · rfl
  · intro q hq hden
    unfold _format_hours
    rw [if_neg hq, if_pos hden]
  · intro q hden
    have hq : q ≠ 1 := fun e => hden (by rw [e]; rfl)
    unfold _format_hours
    rw [if_neg hq, if_neg hden]
  · exact List.sorted_mergeSort strLe_trans strLe_total _
  · have hbc : _hours_by_category
        [⟨"e1", "Work", ⟨2025, 1, 6, 9, 0, 0, 0⟩, ⟨2025, 1, 6, 10, 0, 0, 0⟩⟩,
         ⟨"e2", "Work", ⟨2025, 1, 6, 10, 0, 0, 0⟩, ⟨2025, 1, 6, 10, 30, 0, 0⟩⟩,
         ⟨"e3", "", ⟨2025, 1, 6, 12, 0, 0, 0⟩, ⟨2025, 1, 6, 14, 0, 0, 0⟩⟩] =
        [("Work", 3/2), ("Uncategorized", 2)] := by
      simp [_hours_by_category, addHours, bucketOf, eventHours, toSeconds, toOrdinal,
        daysBeforeYear, daysBeforeMonth, daysInMonth, isLeap]
      norm_num
    have hf2 : _format_hours 2 = "2 hrs" := by
      unfold _format_hours
      rw [if_neg (by norm_num), if_pos (by norm_num)]
      rw [(by norm_num : ((2 : ℚ)).num = 2)]
      decide
    have hr15 : roundHalfEven ((3/2 : ℚ) * 10) = 15 := by
      unfold roundHalfEven
      rw [(by norm_num : ⌊(3/2 : ℚ) * 10⌋ = 15)]
      rw [if_pos (by push_cast; norm_num)]
    have hf32 : _format_hours (3/2) = "1.5 hrs" := by
      unfold _format_hours
      rw [if_neg (by norm_num), if_neg (by norm_num)]
      unfold fmtOneDecimal
      rw [hr15]
      decide
    simp only [categoryLines, hbc]
    rw [if_neg (by simp : ¬ ([("Work", (3 : ℚ)/2), ("Uncategorized", 2)] = []))]
    simp only [List.map_cons, List.map_nil]
    rw [mergeSort_pair, (by decide : strLe "Work" "Uncategorized" = false)]
    simp only [Bool.false_eq_true, if_false, List.map_cons, List.map_nil]
    rw [(by simp [getHours] : getHours [("Work", (3 : ℚ)/2), ("Uncategorized", 2)]
      "Uncategorized" = 2)]
    rw [(by simp [getHours] : getHours [("Work", (3 : ℚ)/2), ("Uncategorized", 2)]
      "Work" = 3/2)]
    rw [hf2, hf32]
    decide

/-- Witness for C5: the formatting of an exact total of 1. -/
theorem claim_C5_witness : _format_hours 1 = "1 hr" :=
  (claim_C5 [] "").2.2.2.1

/-- Claim C6: the week view's range header is
`"Week of <MonAbbr> <Day> – <MonAbbr> <Day>, <Year>"`, the first abbreviation
from the start day's month and the second from the month of start + 6 days
(each day using its own month across boundaries); the week starting Sunday
2024-01-28 yields `"Week of Jan 28 – Feb 3, 2024"`. -/
theorem claim_C6 (week_start : PyDateTime) (events : List Event) :
    (render_week week_start.year week_start.month week_start events).head? =
      some ("Week of " ++ monthAbbrs.getD week_start.month "" ++ " " ++
        toString week_start.day ++ " – " ++
        monthAbbrs.getD (addDays 6 week_start).month "" ++ " " ++
        toString (addDays 6 week_start).day ++ ", " ++ toString week_start.year) ∧
    (render_week 2024 1 ⟨2024, 1, 28, 0, 0, 0, 0⟩ events).head? =
      some "Week of Jan 28 – Feb 3, 2024" := by
  constructor
  · rfl
  · show some (_week_range_label ⟨2024, 1, 28, 0, 0, 0, 0⟩
      (addDays 6 ⟨2024, 1, 28, 0, 0, 0, 0⟩) 2024) = _
    rw [(by decide : addDays 6 ⟨2024, 1, 28, 0, 0, 0, 0⟩ = ⟨2024, 2, 3, 0, 0, 0, 0⟩)]
    decide

/-- Witness for C6: instantiation at the boundary-crossing week. -/
theorem claim_C6_witness :
    (render_week 2024 1 ⟨2024, 1, 28, 0, 0, 0, 0⟩ []).head? =
      some "Week of Jan 28 – Feb 3, 2024" :=
  (claim_C6 ⟨2024, 1, 28, 0, 0, 0, 0⟩ []).2

/-- Claim C7: in the day view and in the week view's per-day listing every
event line is two spaces, the `HH:MM–HH:MM` range, two spaces, then
`[<category>] <description>`, with the bracket prefix omitted entirely when
the category is empty. -/
theorem claim_C7 (date : PyDateTime) (events : List Event) (ev : Event) :
    (ev.category = "" → eventLine ev =
      "  " ++ _format_event_time_range ev.start ev.end_ ++ "  " ++ ev.description) ∧
    (ev.category ≠ "" → eventLine ev =
      "  " ++ _format_event_time_range ev.start ev.end_ ++ "  " ++
        ("[" ++ ev.category ++ "] " ++ ev.description)) ∧
    render_day date events =
      dayHeader date :: String.mk (List.replicate (dayHeader date).length '-') ::
        (events.mergeSort eventLe).map eventLine ∧
    (∀ i : Nat, weekDayEvents date events i ≠ [] →
      dayListing date events i =
        "" :: (dayAbbrs.getD (weekday (midnight (addDays i date))) "" ++ " " ++
          toString (midnight (addDays i date)).month ++ "/" ++
          toString (midnight (addDays i date)).day) ::
          (weekDayEvents date events i).map eventLine) := by
  refine ⟨?_, ?_, rfl, ?_⟩
  · intro h
    simp [eventLine, h]
  · intro h
    simp [eventLine, h]
  · intro i h
    simp [dayListing, h]

/-- Witness for C7: an empty-category event at a concrete time. -/
theorem claim_C7_witness :
    eventLine ⟨"lunch", "", ⟨2025, 1, 6, 12, 0, 0, 0⟩, ⟨2025, 1, 6, 13, 0, 0, 0⟩⟩ =
      "  " ++ _format_event_time_range ⟨2025, 1, 6, 12, 0, 0, 0⟩ ⟨2025, 1, 6, 13, 0, 0, 0⟩ ++
        "  " ++ "lunch" :=
  (claim_C7 ⟨2025, 1, 6, 0, 0, 0, 0⟩ []
    ⟨"lunch", "", ⟨2025, 1, 6, 12, 0, 0, 0⟩, ⟨2025, 1, 6, 13, 0, 0, 0⟩⟩).1 rfl

/-- Claim C8: the day view for an empty event list is exactly the header and a
dash separator line of the header's length, with no placeholder and nothing
after; for every input the separator's length equals the header's. -/
theorem claim_C8 (date : PyDateTime) (events : List Event) :
    render_day date [] =
      [dayHeader date, String.mk (List.replicate (dayHeader date).length '-')] ∧
    (render_day date []).length = 2 ∧
    render_day date events =
      dayHeader date :: String.mk (List.replicate (dayHeader date).length '-') ::
        (events.mergeSort eventLe).map eventLine ∧
    (String.mk (List.replicate (dayHeader date).length '-')).length =
      (dayHeader date).length := by
  refine ⟨?_, ?_, rfl, ?_⟩
  · show dayHeader date :: String.mk (List.replicate (dayHeader date).length '-') ::
      (List.mergeSort [] eventLe).map eventLine = _
    rw [List.mergeSort_nil]
    rfl
  · show (dayHeader date :: String.mk (List.replicate (dayHeader date).length '-') ::
      (List.mergeSort [] eventLe).map eventLine).length = 2
    rw [List.mergeSort_nil]
    rfl
  · show (List.replicate (dayHeader date).length '-').length = (dayHeader date).length
    exact List.length_replicate _ _

/-- Witness for C8: the empty day view on a concrete date. -/
theorem claim_C8_witness :
    render_day ⟨2025, 2, 24, 0, 0, 0, 0⟩ [] =
      [dayHeader ⟨2025, 2, 24, 0, 0, 0, 0⟩,
       String.mk (List.replicate (dayHeader ⟨2025, 2, 24, 0, 0, 0, 0⟩).length '-')] :=
  (claim_C8 ⟨2025, 2, 24, 0, 0, 0, 0⟩ []).1

theorem dateLt_nextDay (t : PyDateTime) : dateLt t (nextDay t) := by
  unfold dateLt nextDay
  by_cases h1 : t.day < daysInMonth t.year t.month
  · simp only [if_pos h1]
    simp
  · by_cases h2 : t.month < 12
    · simp only [if_neg h1, if_pos h2]
      simp
    · simp only [if_neg h1, if_neg h2]
      simp

theorem dateLt_trans {a b c : PyDateTime} (h1 : dateLt a b) (h2 : dateLt b c) :
    dateLt a c := by
  unfold dateLt at *; omega

theorem dateLt_addDays (i : Nat) (t : PyDateTime) (hi : 0 < i) :
    dateLt t (addDays i t) := by
  induction i with
  | zero => omega
  | succ n ih =>
    cases Nat.eq_zero_or_pos n with
    | inl h => subst h; exact dateLt_nextDay t
    | inr h => exact dateLt_trans (ih h) (dateLt_nextDay (addDays n t))

theorem midnight_inj_date {a b : PyDateTime} (h : midnight a = midnight b) :
    a.year = b.year ∧ a.month = b.month ∧ a.day = b.day := by
  cases a
  cases b
  simp only [midnight, PyDateTime.mk.injEq] at h
  simp only
  exact ⟨h.1, h.2.1, h.2.2.1⟩

/-- Claim C9: an event whose start falls on a calendar day before the week
start still contributes its full duration to the per-category totals
(removing it decreases its bucket's total by exactly its hours), yet it is
listed under none of the seven days, because listing buckets events by the
calendar day of their start. -/
theorem claim_C9 (week_start : PyDateTime) (events : List Event) (ev : Event)
    (hmem : ev ∈ events) (hbefore : dateLt ev.start week_start) :
    getHours (_hours_by_category events) (bucketOf ev) =
      eventHours ev + getHours (_hours_by_category (events.erase ev)) (bucketOf ev) ∧
    ∀ i : Nat, i < 7 → ev ∉ weekDayEvents week_start events i := by
  constructor
  · unfold _hours_by_category
    rw [getHours_foldl, getHours_foldl]
    simp only [getHours, zero_add]
    have hperm : List.Perm events (ev :: events.erase ev) := List.perm_cons_erase hmem
    have hfil := hperm.filter (fun e => decide (bucketOf e = bucketOf ev))
    rw [List.filter_cons_of_pos (by simp)] at hfil
    rw [(hfil.map eventHours).sum_eq]
    simp
  · intro i hi hmem2
    unfold weekDayEvents at hmem2
    rw [List.mem_mergeSort] at hmem2
    have heq := of_decide_eq_true (List.mem_filter.mp hmem2).2
    obtain ⟨hy, hm, hd⟩ := midnight_inj_date heq
    cases Nat.eq_zero_or_pos i with
    | inl h0 =>
      subst h0
      unfold dateLt at hbefore
      simp only [addDays] at hy hm hd
      omega
    | inr hpos =>
      have hlt := dateLt_addDays i week_start hpos
      unfold dateLt at hbefore hlt
      omega

/-- Witness for C9: an event starting the Saturday before the week is counted
in the totals but listed on no day. -/
theorem claim_C9_witness :
    getHours (_hours_by_category
        [⟨"retro", "Work", ⟨2025, 1, 4, 22, 0, 0, 0⟩, ⟨2025, 1, 5, 1, 0, 0, 0⟩⟩])
        (bucketOf ⟨"retro", "Work", ⟨2025, 1, 4, 22, 0, 0, 0⟩, ⟨2025, 1, 5, 1, 0, 0, 0⟩⟩) =
      eventHours ⟨"retro", "Work", ⟨2025, 1, 4, 22, 0, 0, 0⟩, ⟨2025, 1, 5, 1, 0, 0, 0⟩⟩ +
        getHours (_hours_by_category
          ([⟨"retro", "Work", ⟨2025, 1, 4, 22, 0, 0, 0⟩, ⟨2025, 1, 5, 1, 0, 0, 0⟩⟩].erase
            ⟨"retro", "Work", ⟨2025, 1, 4, 22, 0, 0, 0⟩, ⟨2025, 1, 5, 1, 0, 0, 0⟩⟩))
          (bucketOf ⟨"retro", "Work", ⟨2025, 1, 4, 22, 0, 0, 0⟩, ⟨2025, 1, 5, 1, 0, 0, 0⟩⟩) ∧
    ∀ i : Nat, i < 7 →
      (⟨"retro", "Work", ⟨2025, 1, 4, 22, 0, 0, 0⟩, ⟨2025, 1, 5, 1, 0, 0, 0⟩⟩ : Event) ∉
        weekDayEvents ⟨2025, 1, 5, 0, 0, 0, 0⟩
          [⟨"retro", "Work", ⟨2025, 1, 4, 22, 0, 0, 0⟩, ⟨2025, 1, 5, 1, 0, 0, 0⟩⟩] i :=
  claim_C9 ⟨2025, 1, 5, 0, 0, 0, 0⟩
    [⟨"retro", "Work", ⟨2025, 1, 4, 22, 0, 0, 0⟩, ⟨2025, 1, 5, 1, 0, 0, 0⟩⟩]
    ⟨"retro", "Work", ⟨2025, 1, 4, 22, 0, 0, 0⟩, ⟨2025, 1, 5, 1, 0, 0, 0⟩⟩
    (by simp) (by decide)
